import Mathlib

/-!
Verification of src/headless/examples/abst_helpers.py, a client driving a
remote traffic-simulation service and comparing trip durations between a
baseline and an experiment run.

Shallow embedding conventions:
- Python dicts over trip identifiers are association lists
  (List (Nat × Int)) with insertion-order semantics: assigning to an
  existing key updates it in place, assigning a fresh key appends.
- Python None/truthiness on dict.get results is Option Int, where both
  none and some 0 are falsy (the source tests if not before_dt).
- HTTP responses are a Response record carrying status code, body text and
  the parsed trips payload; the transport helpers get and post return
  Except String Response, raising the body text on a non-200 status.
- Durations are Int (seconds); averages are computed in ℚ.
-/

namespace Abst

/-- A raw trip record, the 4-tuple (id, trip, mode, duration) delivered by
GET /data/get-finished-trips. mode is none for an aborted trip. -/
structure RawTrip where
  id : Nat
  trip : Nat
  mode : Option String
  duration : Int
deriving DecidableEq, Repr

/-- An HTTP response: status code, body text, and the parsed trips field of
the JSON body (meaningful for the get-finished-trips call). -/
structure Response where
  status_code : Nat
  text : String
  trips : List RawTrip
deriving DecidableEq, Repr

/-- requests.codes.ok -/
def codes_ok : Nat := 200

/-- Source def get (lines 5-9): raise Exception(resp.text) unless the
status is ok, otherwise hand the response back. -/
def get (resp : Response) : Except String Response :=
  if resp.status_code ≠ codes_ok then Except.error resp.text
  else Except.ok resp

/-- Source def post (lines 12-16): same contract as get. -/
def post (resp : Response) : Except String Response :=
  if resp.status_code ≠ codes_ok then Except.error resp.text
  else Except.ok resp

/-- Python dict lookup d.get(k): the value bound to k, or none. The dicts
built here always have distinct keys, so taking the first matching entry
is the dict binding. -/
def dictGet : List (Nat × Int) → Nat → Option Int
  | [], _ => none
  | p :: d, k => if p.1 = k then some p.2 else dictGet d k

/-- Whether k is a key of the dict (Python: k in d). -/
def containsKey : List (Nat × Int) → Nat → Bool
  | [], _ => false
  | p :: d, k => p.1 = k || containsKey d k

/-- Python dict assignment d[k] = v: update the binding in place if k is
already a key (keeping its insertion position), otherwise append a new
binding at the end. -/
def dictInsert : List (Nat × Int) → Nat → Int → List (Nat × Int)
  | [], k, v => [(k, v)]
  | p :: d, k, v => if p.1 = k then (k, v) :: d else p :: dictInsert d k v

/-- Results (lines 44-48): the reduction of one simulation run. -/
structure Results where
  num_aborted : Nat
  trip_times : List (Nat × Int)
deriving DecidableEq, Repr

/-- One iteration of the reduction loop in run_sim (lines 35-39): an
aborted record (mode is None) bumps num_aborted, a finished one binds
trip_times[trip] = duration. -/
def reduceStep (acc : Nat × List (Nat × Int)) (r : RawTrip) :
    Nat × List (Nat × Int) :=
  match r.mode with
  | none => (acc.1 + 1, acc.2)
  | some _ => (acc.1, dictInsert acc.2 r.trip r.duration)

/-- The whole reduction loop of run_sim (lines 33-39), started from
num_aborted = 0 and an empty trip_times dict. -/
def reduceTrips (raw : List RawTrip) : Nat × List (Nat × Int) :=
  raw.foldl reduceStep (0, [])

/-- Source run_sim (lines 20-41): POST /sim/load, POST /sim/goto-time,
GET /data/get-finished-trips, then reduce the trips into a Results.
Each remote call is represented by the response the service would give it;
a non-ok status short-circuits with that response's body text. -/
def run_sim (loadResp gotoResp tripsResp : Response) :
    Except String Results :=
  match post loadResp with
  | Except.error e => Except.error e
  | Except.ok _ =>
    match post gotoResp with
    | Except.error e => Except.error e
    | Except.ok _ =>
      match get tripsResp with
      | Except.error e => Except.error e
      | Except.ok resp =>
        let raw_trips := resp.trips
        let p := reduceTrips raw_trips
        Except.ok (Results.mk p.1 p.2)

/-- Modelled library function: Python statistics.mean, the arithmetic
mean of the data. -/
def statistics_mean (data : List Int) : ℚ :=
  (data.sum : ℚ) / (data.length : ℚ)

/-- Source avg (lines 72-76): mean of the data when non-empty, else 0.0
(an empty Python list is falsy). -/
def avg (data : List Int) : ℚ :=
  if data ≠ [] then statistics_mean data else 0

/-- The state carried through the compare loop (lines 51-64): the two
Results being read plus the local faster and slower lists. -/
structure CompareState where
  self : Results
  results2 : Results
  faster : List Int
  slower : List Int
deriving DecidableEq, Repr

/-- The body of the compare loop for one item (trip, after_dt) of
results2.trip_times (lines 55-64). before_dt = self.trip_times.get(trip);
if not before_dt (that is, the lookup gave None or 0) the trip is skipped;
otherwise the strictly-faster difference is appended to faster or the
strictly-slower difference to slower. -/
def compareStep (st : CompareState) (item : Nat × Int) : CompareState :=
  match dictGet st.self.trip_times item.1 with
  | none => st
  | some before_dt =>
    if before_dt = 0 then st
    else if before_dt > item.2 then
      { st with faster := st.faster ++ [before_dt - item.2] }
    else if item.2 > before_dt then
      { st with slower := st.slower ++ [item.2 - before_dt] }
    else st

/-- Source Results.compare (lines 51-69): fold the loop body over the
items of the experiment's trip_times, starting from empty faster and
slower lists. self is the baseline, results2 the experiment. -/
def Results.compare (self results2 : Results) : CompareState :=
  results2.trip_times.foldl compareStep
    (CompareState.mk self results2 [] [])

/-- The printed report of compare (lines 66-69): count and average of the
faster list, then of the slower list. -/
def compareReport (st : CompareState) : (Nat × ℚ) × (Nat × ℚ) :=
  ((st.faster.length, avg st.faster), (st.slower.length, avg st.slower))

end Abst

/-!
Lemmas about the dict model (Python dict lookup, membership, assignment).
-/

namespace Abst

lemma dictGet_insert_self (d : List (Nat × Int)) (k : Nat) (v : Int) :
    dictGet (dictInsert d k v) k = some v := by
  induction d with
  | nil => simp [dictInsert, dictGet]
  | cons a d ih =>
    by_cases ha : a.1 = k
    · simp [dictInsert, dictGet, ha]
    · simp [dictInsert, dictGet, ha, ih]

lemma dictGet_insert_ne (d : List (Nat × Int)) (k k' : Nat) (v : Int)
    (h : k' ≠ k) : dictGet (dictInsert d k v) k' = dictGet d k' := by
  have hks : k ≠ k' := Ne.symm h
  induction d with
  | nil => simp [dictInsert, dictGet, hks]
  | cons a d ih =>
    by_cases ha : a.1 = k
    · have ha2 : a.1 ≠ k' := by rw [ha]; exact hks
      simp [dictInsert, dictGet, ha, hks, ha2]
    · simp [dictInsert, dictGet, ha, ih]

lemma dictGet_eq_none_of_not_containsKey (d : List (Nat × Int)) (k : Nat)
    (h : containsKey d k = false) : dictGet d k = none := by
  induction d with
  | nil => rfl
  | cons a d ih =>
    simp only [containsKey, Bool.or_eq_false_iff, decide_eq_false_iff_not] at h
    simp [dictGet, h.1, ih h.2]

lemma length_dictInsert_of_containsKey (d : List (Nat × Int)) (k : Nat)
    (v : Int) (h : containsKey d k = true) :
    (dictInsert d k v).length = d.length := by
  induction d with
  | nil => simp [containsKey] at h
  | cons a d ih =>
    by_cases ha : a.1 = k
    · simp [dictInsert, ha]
    · simp only [containsKey, Bool.or_eq_true, decide_eq_true_eq] at h
      rcases h with h | h
      · exact absurd h ha
      · simp [dictInsert, ha, ih h]

lemma length_dictInsert_of_not_containsKey (d : List (Nat × Int)) (k : Nat)
    (v : Int) (h : containsKey d k = false) :
    (dictInsert d k v).length = d.length + 1 := by
  induction d with
  | nil => rfl
  | cons a d ih =>
    simp only [containsKey, Bool.or_eq_false_iff, decide_eq_false_iff_not] at h
    simp [dictInsert, h.1, ih h.2]

lemma length_dictInsert_le (d : List (Nat × Int)) (k : Nat) (v : Int) :
    (dictInsert d k v).length ≤ d.length + 1 := by
  by_cases h : containsKey d k
  · rw [length_dictInsert_of_containsKey d k v h]; omega
  · rw [length_dictInsert_of_not_containsKey d k v (by simpa using h)]

lemma containsKey_dictInsert (d : List (Nat × Int)) (k k' : Nat) (v : Int) :
    containsKey (dictInsert d k v) k' = (containsKey d k' || k' == k) := by
  induction d with
  | nil =>
    by_cases hk : k' = k
    · subst hk; simp [dictInsert, containsKey]
    · simp [dictInsert, containsKey, hk, Ne.symm hk]
  | cons a d ih =>
    by_cases ha : a.1 = k
    · by_cases hk : k' = k
      · subst hk; simp [dictInsert, containsKey, ha]
      · have ha2 : a.1 ≠ k' := by rw [ha]; exact Ne.symm hk
        simp [dictInsert, containsKey, ha, hk, Ne.symm hk, ha2]
    · simp only [dictInsert, if_neg ha, containsKey, ih]
      rw [Bool.or_assoc]

end Abst

namespace Abst

lemma reduce_num_aborted (raw : List RawTrip) :
    ∀ (n : Nat) (d : List (Nat × Int)),
    (raw.foldl reduceStep (n, d)).1
      = n + (raw.filter (fun r => r.mode.isNone)).length := by
  induction raw with
  | nil => intro n d; simp
  | cons r raw ih =>
    intro n d
    cases hm : r.mode with
    | none =>
      simp only [List.foldl_cons, reduceStep, hm, List.filter_cons,
        Option.isNone_none, if_true, List.length_cons, ih]
      omega
    | some m =>
      simp [List.foldl_cons, reduceStep, hm, List.filter_cons, ih]

lemma reduce_count_aux (raw : List RawTrip) :
    ∀ (n : Nat) (d : List (Nat × Int)),
    (raw.map RawTrip.trip).Nodup →
    (∀ r ∈ raw, containsKey d r.trip = false) →
    (raw.foldl reduceStep (n, d)).1 + (raw.foldl reduceStep (n, d)).2.length
      = n + d.length + raw.length := by
  induction raw with
  | nil => intro n d _ _; simp
  | cons r raw ih =>
    intro n d hnd hdisj
    have hnd' : (raw.map RawTrip.trip).Nodup := (List.nodup_cons.mp hnd).2
    have hrmem : r.trip ∉ raw.map RawTrip.trip := (List.nodup_cons.mp hnd).1
    cases hm : r.mode with
    | none =>
      have step : reduceStep (n, d) r = (n + 1, d) := by
        simp [reduceStep, hm]
      rw [List.foldl_cons, step]
      have := ih (n + 1) d hnd'
        (fun r' hr' => hdisj r' (List.mem_cons_of_mem r hr'))
      rw [this]
      simp [List.length_cons]
      omega
    | some m =>
      have step : reduceStep (n, d) r
          = (n, dictInsert d r.trip r.duration) := by
        simp [reduceStep, hm]
      rw [List.foldl_cons, step]
      have hfresh : containsKey d r.trip = false :=
        hdisj r (List.mem_cons_self r raw)
      have hlen : (dictInsert d r.trip r.duration).length = d.length + 1 :=
        length_dictInsert_of_not_containsKey d r.trip r.duration hfresh
      have hdisj' : ∀ r' ∈ raw,
          containsKey (dictInsert d r.trip r.duration) r'.trip = false := by
        intro r' hr'
        rw [containsKey_dictInsert]
        have h1 : containsKey d r'.trip = false :=
          hdisj r' (List.mem_cons_of_mem r hr')
        have h2 : r'.trip ≠ r.trip := by
          intro e
          exact hrmem (e ▸ List.mem_map_of_mem RawTrip.trip hr')
        simp [h1, h2]
      have := ih n (dictInsert d r.trip r.duration) hnd' hdisj'
      rw [this, hlen]
      simp [List.length_cons]
      omega

lemma reduce_keys (raw : List RawTrip) :
    ∀ (n : Nat) (d : List (Nat × Int)) (k : Nat),
    containsKey (raw.foldl reduceStep (n, d)).2 k = true →
    containsKey d k = true ∨ ∃ r ∈ raw, r.mode.isSome ∧ r.trip = k := by
  induction raw with
  | nil => intro n d k h; exact Or.inl h
  | cons r raw ih =>
    intro n d k h
    cases hm : r.mode with
    | none =>
      have step : reduceStep (n, d) r = (n + 1, d) := by
        simp [reduceStep, hm]
      rw [List.foldl_cons, step] at h
      rcases ih (n + 1) d k h with h' | ⟨r', hr', hs, ht⟩
      · exact Or.inl h'
      · exact Or.inr ⟨r', List.mem_cons_of_mem r hr', hs, ht⟩
    | some m =>
      have step : reduceStep (n, d) r
          = (n, dictInsert d r.trip r.duration) := by
        simp [reduceStep, hm]
      rw [List.foldl_cons, step] at h
      rcases ih n (dictInsert d r.trip r.duration) k h with h' | ⟨r', hr', hs, ht⟩
      · rw [containsKey_dictInsert] at h'
        rcases Bool.or_eq_true_iff.mp h' with h'' | h''
        · exact Or.inl h''
        · refine Or.inr ⟨r, List.mem_cons_self r raw, ?_, ?_⟩
          · simp [hm]
          · exact (beq_iff_eq.mp h'').symm
      · exact Or.inr ⟨r', List.mem_cons_of_mem r hr', hs, ht⟩

end Abst

namespace Abst

lemma getLast?_cons_eq (a : α) (l : List α) :
    (a :: l).getLast? = match l.getLast? with
      | some v => some v
      | none => some a := by
  induction l with
  | nil => rfl
  | cons b l _ =>
    rw [List.getLast?_cons_cons]
    cases h : (b :: l).getLast? with
    | none => simp [List.getLast?] at h
    | some v => rfl

lemma reduce_last_wins (raw : List RawTrip) :
    ∀ (n : Nat) (d : List (Nat × Int)) (k : Nat),
    dictGet (raw.foldl reduceStep (n, d)).2 k
      = match ((raw.filter
            (fun r => r.mode.isSome && r.trip == k)).map
              RawTrip.duration).getLast? with
        | some v => some v
        | none => dictGet d k := by
  induction raw with
  | nil => intro n d k; rfl
  | cons r raw ih =>
    intro n d k
    cases hm : r.mode with
    | none =>
      have step : reduceStep (n, d) r = (n + 1, d) := by
        simp [reduceStep, hm]
      have hfil : (List.filter (fun r => r.mode.isSome && r.trip == k) (r :: raw))
          = List.filter (fun r => r.mode.isSome && r.trip == k) raw := by
        simp [List.filter_cons, hm]
      rw [List.foldl_cons, step, hfil]
      exact ih (n + 1) d k
    | some m =>
      have step : reduceStep (n, d) r
          = (n, dictInsert d r.trip r.duration) := by
        simp [reduceStep, hm]
      rw [List.foldl_cons, step]
      by_cases hk : r.trip = k
      · have hfil : (List.filter (fun r => r.mode.isSome && r.trip == k) (r :: raw))
            = r :: List.filter (fun r => r.mode.isSome && r.trip == k) raw := by
          simp [List.filter_cons, hm, hk]
        rw [hfil, List.map_cons, getLast?_cons_eq]
        rw [ih n (dictInsert d r.trip r.duration) k]
        cases hrest : ((raw.filter
            (fun r => r.mode.isSome && r.trip == k)).map
              RawTrip.duration).getLast? with
        | some v => rfl
        | none =>
          rw [← hk]
          exact dictGet_insert_self d r.trip r.duration
      · have hfil : (List.filter (fun r => r.mode.isSome && r.trip == k) (r :: raw))
            = List.filter (fun r => r.mode.isSome && r.trip == k) raw := by
          simp [List.filter_cons, hm, hk]
        rw [hfil, ih n (dictInsert d r.trip r.duration) k]
        cases hrest : ((raw.filter
            (fun r => r.mode.isSome && r.trip == k)).map
              RawTrip.duration).getLast? with
        | some v => rfl
        | none =>
          simp only []
          exact dictGet_insert_ne d r.trip k r.duration (fun e => hk e.symm)

lemma reduce_le (raw : List RawTrip) :
    ∀ (n : Nat) (d : List (Nat × Int)),
    (raw.foldl reduceStep (n, d)).1 + (raw.foldl reduceStep (n, d)).2.length
      ≤ n + d.length + raw.length := by
  induction raw with
  | nil => intro n d; simp
  | cons r raw ih =>
    intro n d
    cases hm : r.mode with
    | none =>
      have step : reduceStep (n, d) r = (n + 1, d) := by
        simp [reduceStep, hm]
      rw [List.foldl_cons, step]
      have := ih (n + 1) d
      simp only [List.length_cons]
      omega
    | some m =>
      have step : reduceStep (n, d) r
          = (n, dictInsert d r.trip r.duration) := by
        simp [reduceStep, hm]
      rw [List.foldl_cons, step]
      have h1 := ih n (dictInsert d r.trip r.duration)
      have h2 := length_dictInsert_le d r.trip r.duration
      simp only [List.length_cons]
      omega

lemma reduce_lt_mem (raw : List RawTrip) :
    ∀ (n : Nat) (d : List (Nat × Int)),
    (∃ r ∈ raw, r.mode.isSome = true ∧ containsKey d r.trip = true) →
    (raw.foldl reduceStep (n, d)).1 + (raw.foldl reduceStep (n, d)).2.length
      < n + d.length + raw.length := by
  induction raw with
  | nil => intro n d h; simp at h
  | cons r raw ih =>
    intro n d h
    rcases h with ⟨w, hw, hws, hwk⟩
    rcases List.mem_cons.mp hw with he | hmem
    · subst he
      cases hm : w.mode with
      | none => simp [hm] at hws
      | some m =>
        have step : reduceStep (n, d) w
            = (n, dictInsert d w.trip w.duration) := by
          simp [reduceStep, hm]
        rw [List.foldl_cons, step]
        have hlen : (dictInsert d w.trip w.duration).length = d.length :=
          length_dictInsert_of_containsKey d w.trip w.duration hwk
        have := reduce_le raw n (dictInsert d w.trip w.duration)
        rw [hlen] at this
        simp only [List.length_cons]
        omega
    · cases hm : r.mode with
      | none =>
        have step : reduceStep (n, d) r = (n + 1, d) := by
          simp [reduceStep, hm]
        rw [List.foldl_cons, step]
        have := ih (n + 1) d ⟨w, hmem, hws, hwk⟩
        simp only [List.length_cons]
        omega
      | some m =>
        have step : reduceStep (n, d) r
            = (n, dictInsert d r.trip r.duration) := by
          simp [reduceStep, hm]
        rw [List.foldl_cons, step]
        have hwk' : containsKey (dictInsert d r.trip r.duration) w.trip = true := by
          rw [containsKey_dictInsert, hwk]; rfl
        have h1 := ih n (dictInsert d r.trip r.duration) ⟨w, hmem, hws, hwk'⟩
        have h2 := length_dictInsert_le d r.trip r.duration
        simp only [List.length_cons]
        omega

lemma reduce_lt_dup (raw : List RawTrip) :
    ∀ (n : Nat) (d : List (Nat × Int)),
    ¬ ((raw.filter (fun r => r.mode.isSome)).map RawTrip.trip).Nodup →
    (raw.foldl reduceStep (n, d)).1 + (raw.foldl reduceStep (n, d)).2.length
      < n + d.length + raw.length := by
  induction raw with
  | nil => intro n d h; simp at h
  | cons r raw ih =>
    intro n d h
    cases hm : r.mode with
    | none =>
      have step : reduceStep (n, d) r = (n + 1, d) := by
        simp [reduceStep, hm]
      have hfil : (List.filter (fun r => r.mode.isSome) (r :: raw))
          = List.filter (fun r => r.mode.isSome) raw := by
        simp [List.filter_cons, hm]
      rw [hfil] at h
      rw [List.foldl_cons, step]
      have := ih (n + 1) d h
      simp only [List.length_cons]
      omega
    | some m =>
      have step : reduceStep (n, d) r
          = (n, dictInsert d r.trip r.duration) := by
        simp [reduceStep, hm]
      have hfil : (List.filter (fun r => r.mode.isSome) (r :: raw))
          = r :: List.filter (fun r => r.mode.isSome) raw := by
        simp [List.filter_cons, hm]
      rw [hfil, List.map_cons, List.nodup_cons] at h
      rw [List.foldl_cons, step]
      by_cases hdup : ((raw.filter (fun r => r.mode.isSome)).map RawTrip.trip).Nodup
      · have hmemtr : r.trip ∈ (raw.filter (fun r => r.mode.isSome)).map RawTrip.trip := by
          by_contra hno
          exact h ⟨hno, hdup⟩
        rcases List.mem_map.mp hmemtr with ⟨w, hwf, hwt⟩
        rcases List.mem_filter.mp hwf with ⟨hwmem, hwfin⟩
        have hwk : containsKey (dictInsert d r.trip r.duration) w.trip = true := by
          rw [containsKey_dictInsert, hwt]
          simp
        have := reduce_lt_mem raw n (dictInsert d r.trip r.duration)
          ⟨w, hwmem, hwfin, hwk⟩
        have h2 := length_dictInsert_le d r.trip r.duration
        simp only [List.length_cons]
        omega
      · have h1 := ih n (dictInsert d r.trip r.duration) hdup
        have h2 := length_dictInsert_le d r.trip r.duration
        simp only [List.length_cons]
        omega

end Abst

namespace Abst

lemma compareStep_self (st : CompareState) (item : Nat × Int) :
    (compareStep st item).self = st.self := by
  unfold compareStep
  cases dictGet st.self.trip_times item.1 with
  | none => rfl
  | some b =>
    dsimp only
    split_ifs <;> rfl

lemma compareStep_results2 (st : CompareState) (item : Nat × Int) :
    (compareStep st item).results2 = st.results2 := by
  unfold compareStep
  cases dictGet st.self.trip_times item.1 with
  | none => rfl
  | some b =>
    dsimp only
    split_ifs <;> rfl

lemma foldl_compareStep_self (l : List (Nat × Int)) :
    ∀ st : CompareState, (l.foldl compareStep st).self = st.self := by
  induction l with
  | nil => intro st; rfl
  | cons p l ih =>
    intro st
    rw [List.foldl_cons, ih (compareStep st p), compareStep_self]

lemma foldl_compareStep_results2 (l : List (Nat × Int)) :
    ∀ st : CompareState, (l.foldl compareStep st).results2 = st.results2 := by
  induction l with
  | nil => intro st; rfl
  | cons p l ih =>
    intro st
    rw [List.foldl_cons, ih (compareStep st p), compareStep_results2]

lemma compareStep_setResults2 (st : CompareState) (X : Results)
    (item : Nat × Int) :
    compareStep { st with results2 := X } item
      = { compareStep st item with results2 := X } := by
  unfold compareStep
  cases dictGet st.self.trip_times item.1 with
  | none => rfl
  | some b =>
    dsimp only
    split_ifs <;> rfl

lemma foldl_compareStep_setResults2 (l : List (Nat × Int)) :
    ∀ (st : CompareState) (X : Results),
    l.foldl compareStep { st with results2 := X }
      = { l.foldl compareStep st with results2 := X } := by
  induction l with
  | nil => intro st X; rfl
  | cons p l ih =>
    intro st X
    rw [List.foldl_cons, List.foldl_cons, compareStep_setResults2 st X p,
      ih (compareStep st p) X]

lemma compareStep_skip (st : CompareState) (item : Nat × Int)
    (h : dictGet st.self.trip_times item.1 = none ∨
         dictGet st.self.trip_times item.1 = some 0) :
    compareStep st item = st := by
  unfold compareStep
  rcases h with h | h
  · rw [h]
  · rw [h]; simp

lemma foldl_compareStep_filter (s : Results) (l : List (Nat × Int)) :
    ∀ st : CompareState, st.self = s →
    (l.filter (fun p => (dictGet s.trip_times p.1).isSome)).foldl
        compareStep st
      = l.foldl compareStep st := by
  induction l with
  | nil => intro st _; rfl
  | cons p l ih =>
    intro st hself
    by_cases hp : (dictGet s.trip_times p.1).isSome
    · rw [List.filter_cons_of_pos (by simpa using hp), List.foldl_cons,
        List.foldl_cons]
      exact ih (compareStep st p) (by rw [compareStep_self, hself])
    · have hnone : dictGet s.trip_times p.1 = none :=
        Option.not_isSome_iff_eq_none.mp hp
      have hstep : compareStep st p = st :=
        compareStep_skip st p (by rw [hself]; exact Or.inl hnone)
      rw [List.filter_cons_of_neg (by simpa using hp), List.foldl_cons,
        hstep]
      exact ih st hself

lemma run_sim_ok_inv (l g t : Response) (r : Results)
    (h : run_sim l g t = Except.ok r) :
    r = Results.mk (reduceTrips t.trips).1 (reduceTrips t.trips).2 := by
  unfold run_sim post get at h
  by_cases h1 : l.status_code ≠ codes_ok
  · rw [if_pos h1] at h; exact absurd h (by simp)
  · rw [if_neg h1] at h
    by_cases h2 : g.status_code ≠ codes_ok
    · rw [if_pos h2] at h; exact absurd h (by simp)
    · rw [if_neg h2] at h
      by_cases h3 : t.status_code ≠ codes_ok
      · rw [if_pos h3] at h; exact absurd h (by simp)
      · rw [if_neg h3] at h
        simp only [Except.ok.injEq] at h
        exact h.symm

end Abst

/-!
Claim theorems.
-/

namespace Abst

/-- C1: compare only considers trips present in both trip_times mappings;
a trip that is a key of the experiment trip_times but not of the baseline
trip_times contributes to neither the faster nor the slower collection:
deleting all such entries from the experiment leaves both collections
unchanged. -/
theorem compare_skips_trips_absent_from_baseline (s r : Results) :
    (Results.compare s (Results.mk r.num_aborted
        (r.trip_times.filter
          (fun p => (dictGet s.trip_times p.1).isSome)))).faster
      = (Results.compare s r).faster ∧
    (Results.compare s (Results.mk r.num_aborted
        (r.trip_times.filter
          (fun p => (dictGet s.trip_times p.1).isSome)))).slower
      = (Results.compare s r).slower := by
  unfold Results.compare
  dsimp only
  rw [foldl_compareStep_filter s r.trip_times
    (CompareState.mk s (Results.mk r.num_aborted
      (r.trip_times.filter (fun p => (dictGet s.trip_times p.1).isSome)))
      [] []) rfl]
  have h2 : CompareState.mk s (Results.mk r.num_aborted
      (r.trip_times.filter (fun p => (dictGet s.trip_times p.1).isSome)))
      [] []
      = { CompareState.mk s r [] [] with
          results2 := Results.mk r.num_aborted
            (r.trip_times.filter
              (fun p => (dictGet s.trip_times p.1).isSome)) } := rfl
  rw [h2, foldl_compareStep_setResults2]
  exact ⟨rfl, rfl⟩

/-- C6: avg returns 0 for an empty collection (not an error) and the
arithmetic mean (sum divided by length) for a non-empty one; in
particular avg [10, 20] = 15. -/
theorem avg_spec (d : List Int) (hd : d ≠ []) :
    avg [] = 0 ∧ avg d = (d.sum : ℚ) / (d.length : ℚ)
      ∧ avg ([10, 20] : List Int) = 15 := by
  refine ⟨by simp [avg], ?_, ?_⟩
  · simp [avg, hd, statistics_mean]
  · simp [avg, statistics_mean]
    norm_num

/-- Witness for avg_spec at d = [10, 20]. -/
theorem avg_spec_witness :
    ([10, 20] : List Int) ≠ [] ∧
    (avg [] = 0 ∧
      avg ([10, 20] : List Int)
        = ((List.sum ([10, 20] : List Int) : Int) : ℚ)
            / ((List.length ([10, 20] : List Int) : Nat) : ℚ)
      ∧ avg ([10, 20] : List Int) = 15) :=
  ⟨by decide, avg_spec [10, 20] (by decide)⟩

/-- C7: if any of the three remote calls of run_sim reports a non-success
status, run_sim propagates an error carrying the body text of the first
failing response and produces no Results value. -/
theorem run_sim_error_propagation (l g t : Response)
    (h : l.status_code ≠ codes_ok ∨ g.status_code ≠ codes_ok ∨
         t.status_code ≠ codes_ok) :
    run_sim l g t = Except.error
      (if l.status_code ≠ codes_ok then l.text
       else if g.status_code ≠ codes_ok then g.text
       else t.text) := by
  unfold run_sim post get
  by_cases h1 : l.status_code ≠ codes_ok
  · rw [if_pos h1, if_pos h1]
  · rw [if_neg h1, if_neg h1]
    by_cases h2 : g.status_code ≠ codes_ok
    · rw [if_pos h2, if_pos h2]
    · rw [if_neg h2, if_neg h2]
      by_cases h3 : t.status_code ≠ codes_ok
      · rw [if_pos h3]
      · exact absurd h (by simp [h1, h2, h3])

/-- Witness for run_sim_error_propagation: a failing load call. -/
theorem run_sim_error_propagation_witness :
    ((Response.mk 500 "boom" []).status_code ≠ codes_ok ∨
     (Response.mk 200 "fine" []).status_code ≠ codes_ok ∨
     (Response.mk 200 "trips" []).status_code ≠ codes_ok) ∧
    run_sim (Response.mk 500 "boom" []) (Response.mk 200 "fine" [])
        (Response.mk 200 "trips" [])
      = Except.error
          (if (Response.mk 500 "boom" []).status_code ≠ codes_ok
           then (Response.mk 500 "boom" []).text
           else if (Response.mk 200 "fine" []).status_code ≠ codes_ok
           then (Response.mk 200 "fine" []).text
           else (Response.mk 200 "trips" []).text) :=
  ⟨Or.inl (by decide),
   run_sim_error_propagation (Response.mk 500 "boom" [])
     (Response.mk 200 "fine" []) (Response.mk 200 "trips" [])
     (Or.inl (by decide))⟩

/-- C8: compare leaves both Results values unchanged; the self and
results2 components carried through the whole loop still have the
num_aborted and trip_times they started with. -/
theorem compare_leaves_results_unchanged (s r : Results) :
    ((Results.compare s r).self.num_aborted = s.num_aborted ∧
     (Results.compare s r).self.trip_times = s.trip_times) ∧
    ((Results.compare s r).results2.num_aborted = r.num_aborted ∧
     (Results.compare s r).results2.trip_times = r.trip_times) := by
  unfold Results.compare
  rw [foldl_compareStep_self, foldl_compareStep_results2]
  exact ⟨⟨rfl, rfl⟩, ⟨rfl, rfl⟩⟩

end Abst

namespace Abst

/-- Equation for the compare loop body once the baseline lookup of the
trip is known. -/
lemma compareStep_eq_of_get (st : CompareState) (t : Nat) (a b : Int)
    (hb : dictGet st.self.trip_times t = some b) :
    compareStep st (t, a)
      = if b = 0 then st
        else if b > a then { st with faster := st.faster ++ [b - a] }
        else if a > b then { st with slower := st.slower ++ [a - b] }
        else st := by
  unfold compareStep
  dsimp only
  rw [hb]

/-- C2 (amended): for a trip present in both runs whose baseline duration
is nonzero, the compare loop body appends baseline minus experiment to
faster when the baseline duration is strictly greater, appends experiment
minus baseline to slower when the experiment duration is strictly
greater, and leaves the state unchanged when they are equal. The
unamended claim fails when the baseline duration is 0: the trip is then
skipped (see the counterexample theorem). -/
theorem compareStep_present_nonzero (st : CompareState) (t : Nat)
    (a b : Int) (hb : dictGet st.self.trip_times t = some b)
    (hnz : b ≠ 0) :
    (b > a → compareStep st (t, a)
        = { st with faster := st.faster ++ [b - a] }) ∧
    (a > b → compareStep st (t, a)
        = { st with slower := st.slower ++ [a - b] }) ∧
    (a = b → compareStep st (t, a) = st) := by
  refine ⟨?_, ?_, ?_⟩ <;> intro h
  · rw [compareStep_eq_of_get st t a b hb, if_neg hnz, if_pos h]
  · rw [compareStep_eq_of_get st t a b hb, if_neg hnz,
      if_neg (show ¬ b > a by omega), if_pos h]
  · rw [compareStep_eq_of_get st t a b hb, if_neg hnz,
      if_neg (show ¬ b > a by omega), if_neg (show ¬ a > b by omega)]

/-- Counterexample to C2 as stated: trip 1 is present in both mappings,
its experiment duration 5 is strictly greater than its baseline duration
0, yet compare appends nothing to the slower (or faster) collection,
because a zero baseline duration is skipped. -/
theorem compare_present_pair_zero_baseline_cex :
    dictGet (Results.mk 0 [(1, 0)]).trip_times 1 = some 0 ∧
    dictGet (Results.mk 0 [(1, 5)]).trip_times 1 = some 5 ∧
    ((5 : Int) > 0) ∧
    (Results.compare (Results.mk 0 [(1, 0)])
        (Results.mk 0 [(1, 5)])).slower = [] ∧
    (Results.compare (Results.mk 0 [(1, 0)])
        (Results.mk 0 [(1, 5)])).faster = [] := by
  decide

/-- Witness for compareStep_present_nonzero: baseline 100, experiment 80
on trip 1 appends the 20 second saving to faster. -/
theorem compareStep_present_nonzero_witness :
    compareStep
        (CompareState.mk (Results.mk 0 [(1, 100)])
          (Results.mk 0 [(1, 80)]) [] []) (1, 80)
      = CompareState.mk (Results.mk 0 [(1, 100)])
          (Results.mk 0 [(1, 80)]) [20] [] := by
  have h := compareStep_present_nonzero
    (CompareState.mk (Results.mk 0 [(1, 100)])
      (Results.mk 0 [(1, 80)]) [] [])
    1 80 100 (by decide) (by decide)
  have h2 := h.1 (by decide)
  simpa using h2

/-- C3: a trip whose baseline duration is 0 is handled by the compare
loop body exactly like one absent from the baseline trip_times: in both
cases the state is unchanged, whatever the experiment duration. -/
theorem compareStep_zero_baseline_like_absent (st : CompareState)
    (t : Nat) (a : Int)
    (h : dictGet st.self.trip_times t = some 0 ∨
         dictGet st.self.trip_times t = none) :
    compareStep st (t, a) = st := by
  rcases h with h | h
  · exact compareStep_skip st (t, a) (Or.inr h)
  · exact compareStep_skip st (t, a) (Or.inl h)

/-- Witness for compareStep_zero_baseline_like_absent: trip 3 has
baseline duration 0 and experiment duration 44, and is skipped. -/
theorem compareStep_zero_baseline_like_absent_witness :
    compareStep
        (CompareState.mk (Results.mk 0 [(3, 0)])
          (Results.mk 0 [(3, 44)]) [] []) (3, 44)
      = CompareState.mk (Results.mk 0 [(3, 0)])
          (Results.mk 0 [(3, 44)]) [] [] :=
  compareStep_zero_baseline_like_absent
    (CompareState.mk (Results.mk 0 [(3, 0)])
      (Results.mk 0 [(3, 44)]) [] [])
    3 44 (Or.inl (by decide))

/-- C9: the zero-as-missing conflation applies only to the baseline
side: a trip present in both runs with a strictly positive baseline
duration and experiment duration 0 is appended to faster with the full
baseline duration as the saving. -/
theorem compareStep_zero_experiment_full_savings (st : CompareState)
    (t : Nat) (b : Int) (hb : dictGet st.self.trip_times t = some b)
    (hpos : 0 < b) :
    compareStep st (t, 0) = { st with faster := st.faster ++ [b] } := by
  rw [compareStep_eq_of_get st t 0 b hb,
    if_neg (show ¬ b = 0 by omega), if_pos hpos, sub_zero]

/-- Witness for compareStep_zero_experiment_full_savings: baseline 7,
experiment 0 on trip 2 appends the full 7 seconds to faster. -/
theorem compareStep_zero_experiment_full_savings_witness :
    compareStep
        (CompareState.mk (Results.mk 0 [(2, 7)])
          (Results.mk 0 [(2, 0)]) [] []) (2, 0)
      = CompareState.mk (Results.mk 0 [(2, 7)])
          (Results.mk 0 [(2, 0)]) [7] [] := by
  have h := compareStep_zero_experiment_full_savings
    (CompareState.mk (Results.mk 0 [(2, 7)])
      (Results.mk 0 [(2, 0)]) [] [])
    2 7 (by decide) (by decide)
  simpa using h

end Abst

namespace Abst

/-- A successful response carrying the given trips payload, used by
witnesses. -/
def okResp (trips : List RawTrip) : Response :=
  Response.mk 200 "ok" trips

/-- C4: when the trip identifiers of the raw trip list are unique, the
Results produced by run_sim satisfies num_aborted plus the size of
trip_times equals the number of raw records, and num_aborted counts
exactly the records whose mode is null. -/
theorem run_sim_unique_count (l g t : Response)
    (hnd : (t.trips.map RawTrip.trip).Nodup) (r : Results)
    (hok : run_sim l g t = Except.ok r) :
    r.num_aborted + r.trip_times.length = t.trips.length ∧
    r.num_aborted
      = (t.trips.filter (fun rec => rec.mode.isNone)).length := by
  have hr := run_sim_ok_inv l g t r hok
  subst hr
  constructor
  · have h := reduce_count_aux t.trips 0 [] hnd (fun _ _ => rfl)
    simpa [reduceTrips] using h
  · have h := reduce_num_aborted t.trips 0 []
    simpa [reduceTrips] using h

/-- Witness for run_sim_unique_count: one finished and one aborted
record with distinct trip identifiers. -/
theorem run_sim_unique_count_witness :
    (Results.mk 1 [(1, 10)]).num_aborted
        + (Results.mk 1 [(1, 10)]).trip_times.length
      = (okResp [RawTrip.mk 0 1 (some "walk") 10,
          RawTrip.mk 1 2 none 0]).trips.length ∧
    (Results.mk 1 [(1, 10)]).num_aborted
      = ((okResp [RawTrip.mk 0 1 (some "walk") 10,
          RawTrip.mk 1 2 none 0]).trips.filter
            (fun rec => rec.mode.isNone)).length :=
  run_sim_unique_count (okResp []) (okResp [])
    (okResp [RawTrip.mk 0 1 (some "walk") 10, RawTrip.mk 1 2 none 0])
    (by decide) (Results.mk 1 [(1, 10)]) (by rfl)

/-- C5: a raw record whose mode is null never contributes a key to the
trip_times built by run_sim: every key of trip_times is the trip of some
finished (non-null-mode) raw record. -/
theorem run_sim_trip_times_only_finished (l g t : Response) (r : Results)
    (hok : run_sim l g t = Except.ok r) (k : Nat)
    (hk : containsKey r.trip_times k = true) :
    ∃ rec ∈ t.trips, rec.mode.isSome ∧ rec.trip = k := by
  have hr := run_sim_ok_inv l g t r hok
  subst hr
  have h := reduce_keys t.trips 0 [] k (by simpa [reduceTrips] using hk)
  rcases h with h | h
  · simp [containsKey] at h
  · exact h

/-- Witness for run_sim_trip_times_only_finished: key 1 of the built
trip_times comes from a finished record. -/
theorem run_sim_trip_times_only_finished_witness :
    ∃ rec ∈ (okResp [RawTrip.mk 0 1 (some "walk") 10,
        RawTrip.mk 1 2 none 0]).trips,
      rec.mode.isSome ∧ rec.trip = 1 :=
  run_sim_trip_times_only_finished (okResp []) (okResp [])
    (okResp [RawTrip.mk 0 1 (some "walk") 10, RawTrip.mk 1 2 none 0])
    (Results.mk 1 [(1, 10)]) (by rfl) 1 (by decide)

/-- C10: when several finished records share a trip identifier, the
reduction keeps only the duration of the last such record (each key of
trip_times is bound to the duration of the last finished record with
that trip), and num_aborted plus the size of trip_times is then strictly
smaller than the raw record count. -/
theorem run_sim_duplicate_finished_last_wins (l g t : Response)
    (r : Results) (hok : run_sim l g t = Except.ok r)
    (hdup : ¬ ((t.trips.filter
        (fun rec => rec.mode.isSome)).map RawTrip.trip).Nodup) :
    (∀ k, dictGet r.trip_times k
        = ((t.trips.filter
            (fun rec => rec.mode.isSome && rec.trip == k)).map
              RawTrip.duration).getLast?) ∧
    r.num_aborted + r.trip_times.length < t.trips.length := by
  have hr := run_sim_ok_inv l g t r hok
  subst hr
  constructor
  · intro k
    have h := reduce_last_wins t.trips 0 [] k
    simp only [reduceTrips]
    rw [h]
    cases ((t.trips.filter
        (fun rec => rec.mode.isSome && rec.trip == k)).map
          RawTrip.duration).getLast? with
    | none => rfl
    | some v => rfl
  · have h := reduce_lt_dup t.trips 0 [] hdup
    simpa [reduceTrips] using h

/-- Witness for run_sim_duplicate_finished_last_wins: two finished
records for trip 1; only the later duration 20 is kept and the counts
fall short of the record total. -/
theorem run_sim_duplicate_finished_last_wins_witness :
    (∀ k, dictGet (Results.mk 0 [(1, 20)]).trip_times k
        = (((okResp [RawTrip.mk 0 1 (some "walk") 10,
            RawTrip.mk 1 1 (some "bike") 20]).trips.filter
              (fun rec => rec.mode.isSome && rec.trip == k)).map
                RawTrip.duration).getLast?) ∧
    (Results.mk 0 [(1, 20)]).num_aborted
        + (Results.mk 0 [(1, 20)]).trip_times.length
      < (okResp [RawTrip.mk 0 1 (some "walk") 10,
          RawTrip.mk 1 1 (some "bike") 20]).trips.length :=
  run_sim_duplicate_finished_last_wins (okResp []) (okResp [])
    (okResp [RawTrip.mk 0 1 (some "walk") 10,
      RawTrip.mk 1 1 (some "bike") 20])
    (Results.mk 0 [(1, 20)]) (by rfl) (by decide)

end Abst
